import Mathlib

/-!
Verification development for the ssh-portfolio "now playing" core.

The development shallowly embeds the two core subsystems of the repository:

* package `albumart` (renderer + LRU/TTL cache): `renderImage`,
  `renderPlaceholder`, `RenderFromURL`, `ClearCache`;
* package `spotify` (credential manager + track fetcher):
  `refreshAccessToken`, `ensureValidToken`, `GetCurrentlyPlaying`,
  `GetRecentlyPlayed`, and the session-level `fetchTrack` and the
  widget truncation of `renderSpotifyWidget`.

Go strings are modelled as `List Char`; Go `int` as `Int`; instants
(`time.Time`) as `Int` seconds; the HTTP transport and the image decoder
are abstracted as explicit result parameters, so every network outcome
the code distinguishes (transport error, status code, JSON/image decode
failure, decoded payload) is a constructor the embedded function
branches on exactly where the Go code does.
-/

/-- The ASCII escape character that introduces every ANSI SGR sequence. -/
def escChar : Char := '\x1b'

/-- The upper-half-block character U+2580 printed for every rendered cell. -/
def halfBlock : Char := '▀'

/-- The ANSI reset sequence `ESC[0m` written at the end of every rendered line
(Go writes the literal string before each newline). -/
def resetSeq : List Char := [escChar, '[', '0', 'm']

/-- Worker for `natDigits`: structural recursion on a fuel argument (kept
strictly above `n`, so the fuel never runs out — see `natDigits_eq`). -/
def natDigitsGo : Nat → Nat → List Char → List Char
  | 0, _, acc => acc
  | fuel + 1, n, acc =>
    if n < 10 then Nat.digitChar n :: acc
    else natDigitsGo fuel (n / 10) (Nat.digitChar (n % 10) :: acc)

/-- Decimal rendering of a natural number, exactly what Go's `%d` verb prints
for the (non-negative) channel values of `renderImage`. -/
def natDigits (n : Nat) : List Char := natDigitsGo (n + 1) n []

/-- Foreground true-color sequence `ESC[38;2;R;G;Bm` as `renderImage` formats it. -/
def ansiFg (r g b : Nat) : List Char :=
  escChar :: '[' :: '3' :: '8' :: ';' :: '2' :: ';' ::
    (natDigits r ++ ';' :: natDigits g ++ ';' :: natDigits b ++ ['m'])

/-- Background true-color sequence `ESC[48;2;R;G;Bm` as `renderImage` formats it. -/
def ansiBg (r g b : Nat) : List Char :=
  escChar :: '[' :: '4' :: '8' :: ';' :: '2' :: ';' ::
    (natDigits r ++ ';' :: natDigits g ++ ';' :: natDigits b ++ ['m'])

/-- One rendered cell: the Go `fmt.Sprintf` format
`"\x1b[38;2;%d;%d;%dm\x1b[48;2;%d;%d;%dm▀"` applied to the six channel values. -/
def renderCell (tR tG tB bR bG bB : Nat) : List Char :=
  ansiFg tR tG tB ++ ansiBg bR bG bB ++ [halfBlock]

/-- Abstraction of the resampled raster produced by `resizeImage`:
`(x, y) ↦ (R, G, B)` with 16-bit samples, as Go's `image.Color.RGBA()`
returns them.  The Catmull-Rom resampling itself is outside the embedding;
`renderImage` is verified for every raster. -/
abbrev Raster := Nat → Nat → Nat × Nat × Nat

/-- One cell row of `renderImage`'s inner loop: for `x` in `0 … width-1`,
read the top pixel at `(x, y)` and the bottom pixel at `(x, y+1)` (falling
back to the top pixel when `y+1` reaches `pixelHeight`, as the Go code
guards), shift each 16-bit channel right by 8, and emit the cell. -/
def renderRow (pix : Raster) (width pixelHeight y : Nat) : List Char :=
  (List.range width).flatMap fun x =>
    let t := pix x y
    let b := if y + 1 < pixelHeight then pix x (y + 1) else t
    renderCell (t.1 / 256) (t.2.1 / 256) (t.2.2 / 256)
      (b.1 / 256) (b.2.1 / 256) (b.2.2 / 256)

/-- Go's trailing-newline strip at the end of `renderImage` and
`renderPlaceholder`: drop the last byte if it is `'\n'`. -/
def stripTrailingNL (s : List Char) : List Char :=
  if s.getLast? = some '\n' then s.dropLast else s

/-- `renderImage` from `albumart`: resample to `width × 2·height` (the raster
is abstracted as `pix`), then for `y = 0, 2, 4, …  < 2·height` emit a cell row
followed by `ESC[0m` and a newline, and finally strip the trailing newline.
`width`/`height` are Go `int`s; a non-positive bound runs the loop zero times,
which `Int.toNat` reproduces. -/
def renderImage (pix : Raster) (width height : Int) : List Char :=
  stripTrailingNL <| (List.range height.toNat).flatMap fun yc =>
    renderRow pix width.toNat (2 * height.toNat) (2 * yc) ++ resetSeq ++ ['\n']

/-- The dim-gray cell literal of `renderPlaceholder`:
`"\x1b[38;2;60;60;60m\x1b[48;2;40;40;40m▀"`. -/
def grayCell : List Char :=
  ['\x1b', '[', '3', '8', ';', '2', ';', '6', '0', ';', '6', '0', ';', '6', '0', 'm',
   '\x1b', '[', '4', '8', ';', '2', ';', '4', '0', ';', '4', '0', ';', '4', '0', 'm', '▀']

/-- `renderPlaceholder` from `albumart`: `height` rows of `width` gray cells,
each row closed by `ESC[0m` and a newline, trailing newline stripped. -/
def renderPlaceholder (width height : Int) : List Char :=
  stripTrailingNL <| (List.range height.toNat).flatMap fun _ =>
    ((List.range width.toNat).flatMap fun _ => grayCell) ++ resetSeq ++ ['\n']

/-- Split a character list on `'\n'`, with the semantics of splitting a string
on a one-character separator: splitting the empty string yields one empty
piece, and a trailing newline yields a trailing empty piece. -/
def splitNL : List Char → List (List Char)
  | [] => [[]]
  | c :: rest =>
    if c = '\n' then [] :: splitNL rest
    else
      match splitNL rest with
      | [] => [[c]]
      | l :: ls => (c :: l) :: ls

/-- Number of occurrences of `pat` as a contiguous run inside `s` (counted at
every start position, overlaps included). -/
def countOccur (pat : List Char) : List Char → Nat
  | [] => if pat.isPrefixOf ([] : List Char) then 1 else 0
  | c :: rest => (if pat.isPrefixOf (c :: rest) then 1 else 0) + countOccur pat rest

/-! ## The `albumart` cache and `RenderFromURL` -/

/-- `cacheEntry` from `albumart`: a rendered frame and its insertion instant. -/
structure cacheEntry where
  rendered : List Char
  timestamp : Int
deriving DecidableEq

/-- The process-wide `cache` map, modelled as an association list in (Go map)
iteration order; the reachable states keep the keys distinct. -/
abbrev Cache := List (String × cacheEntry)

/-- `cacheTTL = 5 * time.Minute`, in seconds. -/
def cacheTTL : Int := 300

/-- `cacheSize = 10`. -/
def cacheSize : Nat := 10

/-- Go map lookup `cache[url]`. -/
def cacheLookup (c : Cache) (url : String) : Option cacheEntry :=
  (c.find? fun kv => kv.1 == url).map fun kv => kv.2

/-- The eviction scan of `RenderFromURL`: fold Go's
`if oldestKey == "" || v.timestamp.Before(oldestTime)` update over the map,
starting from the sentinel `("", 0)`. -/
def findOldestGo : Cache → String × Int → String × Int
  | [], acc => acc
  | kv :: rest, acc =>
    findOldestGo rest
      (if acc.1 = "" ∨ kv.2.timestamp < acc.2 then (kv.1, kv.2.timestamp) else acc)

/-- The key selected for eviction by the scan (`oldestKey`). -/
def findOldest (c : Cache) : String := (findOldestGo c ("", 0)).1

/-- Go `delete(cache, k)`. -/
def cacheErase (c : Cache) (k : String) : Cache := c.filter fun kv => kv.1 != k

/-- Go map assignment `cache[url] = entry`: overwrite when present, append
otherwise. -/
def cacheInsert (c : Cache) (k : String) (v : cacheEntry) : Cache :=
  if c.any fun kv => kv.1 == k then
    c.map fun kv => if kv.1 == k then (k, v) else kv
  else c ++ [(k, v)]

/-- Outcome of the download-and-decode step of `RenderFromURL`: `http.Get`
transport failure, `image.Decode` failure (this also covers a non-image body
such as an HTTP 500 error page — the Go code never inspects the status code,
so the failure surfaces at decode), or a successfully decoded image given to
`resizeImage`, abstracted as its raster. -/
inductive FetchOutcome where
  | netErr
  | decodeErr
  | ok (pix : Raster)

/-- Result of one `RenderFromURL` call: the returned string, whether a non-nil
error was returned, the cache state afterwards, and whether an outbound HTTP
request was made. -/
structure RenderResult where
  rendered : List Char
  errored : Bool
  cache : Cache
  requested : Bool

/-- The part of `RenderFromURL` after a cache miss (Go lines: download,
decode, render, capacity eviction, insertion), reached either when the URL is
absent from the cache or when its entry is stale. -/
def renderMiss (url : String) (width height : Int) (st : Cache) (now : Int)
    (fetch : FetchOutcome) : RenderResult :=
  match fetch with
  | .netErr => ⟨renderPlaceholder width height, true, st, true⟩
  | .decodeErr => ⟨renderPlaceholder width height, true, st, true⟩
  | .ok pix =>
    let rendered := renderImage pix width height
    let st1 := if cacheSize ≤ st.length then cacheErase st (findOldest st) else st
    ⟨rendered, false, cacheInsert st1 url ⟨rendered, now⟩, true⟩

/-- `RenderFromURL` from `albumart`, with the shared cache threaded as explicit
state and the network/decoder abstracted by `fetch`. Mirrors the Go control
flow: empty-URL placeholder, cache probe with TTL test, then the miss path
(`renderMiss`). -/
def RenderFromURL (url : String) (width height : Int) (st : Cache) (now : Int)
    (fetch : FetchOutcome) : RenderResult :=
  if url = "" then ⟨renderPlaceholder width height, false, st, false⟩
  else
    match cacheLookup st url with
    | some entry =>
      if now - entry.timestamp < cacheTTL then ⟨entry.rendered, false, st, false⟩
      else renderMiss url width height st now fetch
    | none => renderMiss url width height st now fetch

/-- `ClearCache` from `albumart`: replace the map with an empty one. -/
def ClearCache : Cache := []

/-- One shared-cache operation: a `RenderFromURL` call (with its call instant
and its abstracted network outcome) or a `ClearCache` call. -/
inductive CacheOp where
  | render (url : String) (width height : Int) (now : Int) (fetch : FetchOutcome)
  | clear

/-- Effect of one operation on the shared cache. -/
def cacheStep (st : Cache) : CacheOp → Cache
  | .render url width height now fetch => (RenderFromURL url width height st now fetch).cache
  | .clear => ClearCache

/-- The cache reached from process start (empty map) by a sequence of
operations. -/
def runCache (ops : List CacheOp) : Cache := ops.foldl cacheStep []

/-- Reachable-state invariant of the shared cache: at most 10 entries, keys
distinct, and no key is the empty string (`RenderFromURL` never inserts one). -/
def CacheWF (st : Cache) : Prop :=
  st.length ≤ cacheSize ∧ (st.map Prod.fst).Nodup ∧ ∀ kv ∈ st, kv.1 ≠ ""

instance : DecidablePred CacheWF := fun st => by
  unfold CacheWF; infer_instance

/-- A sample full cache (ten distinct URLs, the oldest inserted at time 1),
used to evaluate the eviction behaviour on a concrete state. -/
def cacheTen : Cache :=
  [("u1", ⟨[], 1⟩), ("u2", ⟨[], 2⟩), ("u3", ⟨[], 3⟩), ("u4", ⟨[], 4⟩),
   ("u5", ⟨[], 5⟩), ("u6", ⟨[], 6⟩), ("u7", ⟨[], 7⟩), ("u8", ⟨[], 8⟩),
   ("u9", ⟨[], 9⟩), ("u10", ⟨[], 10⟩)]

/-! ## The `spotify` client -/

/-- The mutable bearer state of `spotify.Client` (`accessToken`,
`tokenExpiry`), the part guarded by the mutex. -/
structure BearerState where
  accessToken : String
  tokenExpiry : Int
deriving DecidableEq

/-- Outcome of the token-endpoint POST of `refreshAccessToken`: transport
error, or a status code together with what JSON-decoding the body would give
(`Except.error` = malformed JSON; the pair is `access_token`, `expires_in`). -/
inductive TokenFetch where
  | netErr
  | resp (status : Nat) (body : Except Unit (String × Int))

/-- `refreshAccessToken`: POST the refresh grant; on non-200 or a decode
failure return an error leaving the state untouched; on success store the new
token with expiry `now + (expires_in − 60)` seconds.  The `Bool` is `true`
iff a non-nil error was returned. -/
def refreshAccessToken (st : BearerState) (now : Int) (f : TokenFetch) :
    BearerState × Bool :=
  match f with
  | .netErr => (st, true)
  | .resp status body =>
    if status ≠ 200 then (st, true)
    else
      match body with
      | .error _ => (st, true)
      | .ok (tok, expIn) => (⟨tok, now + (expIn - 60)⟩, false)

/-- `ensureValidToken`: if the stored token is non-empty and unexpired, keep
it; otherwise refresh. -/
def ensureValidToken (st : BearerState) (now : Int) (f : TokenFetch) :
    BearerState × Bool :=
  if st.accessToken ≠ "" ∧ now < st.tokenExpiry then (st, false)
  else refreshAccessToken st now f

/-- `spotify.Track`. -/
structure Track where
  name : String
  artist : String
  album : String
  artworkURL : String
  isPlaying : Bool
deriving DecidableEq

/-- The item payload shared by the two player endpoints (`item` of
currently-playing, `items[i].track` of recently-played): track name, album
name, album image URLs, artist names. -/
structure TrackItem where
  name : String
  albumName : String
  albumImages : List String
  artists : List String
deriving DecidableEq

/-- Decoded body of `/me/player/currently-playing` (`is_playing` plus an
optional `item`). -/
structure CPData where
  isPlaying : Bool
  item : Option TrackItem
deriving DecidableEq

/-- Decoded body of `/me/player/recently-played?limit=1`. -/
structure RPData where
  items : List TrackItem
deriving DecidableEq

/-- Outcome of one authenticated API call, as the Go code distinguishes them:
`ensureValidToken` failed, the transport failed, or a response arrived with a
status code and (lazily) what JSON-decoding its body would yield. -/
inductive Fetched (β : Type) where
  | authErr
  | netErr
  | resp (status : Nat) (body : Except Unit β)

/-- The Go field extraction shared by both endpoints: `artist` and
`artwork_url` default to `""` when the `artists` / `images` arrays are empty. -/
def trackOfItem (playing : Bool) (item : TrackItem) : Track :=
  { name := item.name
    album := item.albumName
    isPlaying := playing
    artist := match item.artists with | [] => "" | a :: _ => a
    artworkURL := match item.albumImages with | [] => "" | u :: _ => u }

/-- `GetCurrentlyPlaying`: 204 → `none` before any decode; non-200 → error
carrying the status; 200 → decode, absent `item` → `none`, otherwise the
normalized `Track` with `is_playing` from the root. -/
def GetCurrentlyPlaying (f : Fetched CPData) : Except String (Option Track) :=
  match f with
  | .authErr => .error "failed to get valid token"
  | .netErr => .error "request failed"
  | .resp status body =>
    if status = 204 then .ok none
    else if status ≠ 200 then .error ("spotify API error: " ++ toString status)
    else
      match body with
      | .error _ => .error "failed to decode response"
      | .ok data =>
        match data.item with
        | none => .ok none
        | some item => .ok (some (trackOfItem data.isPlaying item))

/-- `GetRecentlyPlayed`: 200 only; empty `items` → `none`; otherwise the
normalized `Track` of `items[0].track` with `is_playing = false`. -/
def GetRecentlyPlayed (f : Fetched RPData) : Except String (Option Track) :=
  match f with
  | .authErr => .error "failed to get valid token"
  | .netErr => .error "request failed"
  | .resp status body =>
    if status ≠ 200 then .error ("spotify API error: " ++ toString status)
    else
      match body with
      | .error _ => .error "failed to decode response"
      | .ok data =>
        match data.items with
        | [] => .ok none
        | item :: _ => .ok (some (trackOfItem false item))

/-- The session's `fetchTrack` command: with no client, report nothing; on a
currently-playing error, report it; when currently-playing yields no track,
fall back to recently-played and force `IsPlaying = false` on a non-nil
result.  Returns the `trackMsg` payload `(track, err)`. -/
def fetchTrack (clientPresent : Bool) (cpF : Fetched CPData)
    (rpF : Fetched RPData) : Option Track × Option String :=
  if clientPresent = false then (none, none)
  else
    match GetCurrentlyPlaying cpF with
    | .error e => (none, some e)
    | .ok (some t) => (some t, none)
    | .ok none =>
      match GetRecentlyPlayed rpF with
      | .error e => (none, some e)
      | .ok none => (none, none)
      | .ok (some t) => (some { t with isPlaying := false }, none)

/-- The display truncation of `renderSpotifyWidget`, applied to the track
name, artist and album: strings longer than 26 bytes are cut to their first
23 bytes and `"..."` is appended.  Go slices bytes; the model uses characters,
which coincides on ASCII data. -/
def truncateDisplay (s : List Char) : List Char :=
  if 26 < s.length then s.take 23 ++ ['.', '.', '.'] else s

/-! ## Helper lemmas: digit characters, escape scanning, line splitting -/

theorem natDigitsGo_mem {P : Char → Prop} (hP : ∀ d, d < 10 → P (Nat.digitChar d)) :
    ∀ fuel n (acc : List Char), (∀ c ∈ acc, P c) → ∀ c ∈ natDigitsGo fuel n acc, P c := by
  intro fuel
  induction fuel with
  | zero => exact fun n acc hacc c hc => hacc c hc
  | succ fuel ih =>
    intro n acc hacc c hc
    unfold natDigitsGo at hc
    by_cases hn : n < 10
    · rw [if_pos hn] at hc
      rcases List.mem_cons.mp hc with hc | hc
      · exact hc ▸ hP n hn
      · exact hacc c hc
    · rw [if_neg hn] at hc
      refine ih (n / 10) _ ?_ c hc
      intro c hc
      rcases List.mem_cons.mp hc with hc | hc
      · exact hc ▸ hP (n % 10) (Nat.mod_lt n (by omega))
      · exact hacc c hc

theorem natDigits_mem (n : Nat) :
    ∀ c ∈ natDigits n, c ∈ ['0', '1', '2', '3', '4', '5', '6', '7', '8', '9'] :=
  natDigitsGo_mem (by decide) (n + 1) n [] (by simp)

theorem natDigits_ne_esc (n : Nat) : escChar ∉ natDigits n :=
  fun h => absurd (natDigits_mem n escChar h) (by decide)

theorem natDigits_ne_nl (n : Nat) : '\n' ∉ natDigits n :=
  fun h => absurd (natDigits_mem n '\n' h) (by decide)

theorem countOccur_cons (pat : List Char) (c : Char) (rest : List Char) :
    countOccur pat (c :: rest) =
      (if pat.isPrefixOf (c :: rest) then 1 else 0) + countOccur pat rest := rfl

theorem splitNL_cons (c : Char) (rest : List Char) :
    splitNL (c :: rest) =
      if c = '\n' then [] :: splitNL rest
      else
        match splitNL rest with
        | [] => [[c]]
        | l :: ls => (c :: l) :: ls := rfl

theorem countOccur_skip (a t : List Char) (ha : escChar ∉ a) :
    countOccur resetSeq (a ++ t) = countOccur resetSeq t := by
  induction a with
  | nil => rfl
  | cons c a ih =>
    have hc : escChar ≠ c := fun h => ha (h ▸ List.mem_cons_self c a)
    rw [List.cons_append, countOccur_cons]
    have hpre : resetSeq.isPrefixOf (c :: (a ++ t)) = false := by
      have hb : (escChar == c) = false := beq_eq_false_iff_ne.mpr hc
      simp [resetSeq, List.isPrefixOf, hb]
    rw [hpre]
    simpa using ih (fun h => ha (List.mem_cons_of_mem _ h))

theorem countOccur_seq (c : Char) (h0 : c ≠ '0') (he : escChar ≠ c)
    (tail t : List Char) (htail : escChar ∉ tail) :
    countOccur resetSeq ((escChar :: '[' :: c :: tail) ++ t) = countOccur resetSeq t := by
  rw [List.cons_append, countOccur_cons]
  have hpre : resetSeq.isPrefixOf (escChar :: (('[' :: c :: tail) ++ t)) = false := by
    have hb : ('0' == c) = false := beq_eq_false_iff_ne.mpr (fun h => h0 h.symm)
    simp [resetSeq, List.isPrefixOf, hb]
  rw [hpre]
  have hnm : escChar ∉ ('[' :: c :: tail) := by
    intro h
    rcases List.mem_cons.mp h with h | h
    · exact absurd h (by decide)
    · rcases List.mem_cons.mp h with h | h
      · exact he h
      · exact htail h
  simpa using countOccur_skip ('[' :: c :: tail) t hnm

theorem seg_no_esc_nl (r g b : Nat) :
    ∀ c ∈ (natDigits r ++ ';' :: natDigits g ++ ';' :: natDigits b ++ ['m']),
      c ≠ escChar ∧ c ≠ '\n' := by
  intro c hc
  have hdig : ∀ n, c ∈ natDigits n → c ≠ escChar ∧ c ≠ '\n' := fun n h =>
    ⟨fun he => natDigits_ne_esc n (he ▸ h), fun he => natDigits_ne_nl n (he ▸ h)⟩
  rcases List.mem_append.mp hc with h | h
  · rcases List.mem_append.mp h with h | h
    · rcases List.mem_append.mp h with h | h
      · exact hdig _ h
      · rcases List.mem_cons.mp h with rfl | h
        · exact ⟨by decide, by decide⟩
        · exact hdig _ h
    · rcases List.mem_cons.mp h with rfl | h
      · exact ⟨by decide, by decide⟩
      · exact hdig _ h
  · have := List.mem_singleton.mp h
    subst this
    exact ⟨by decide, by decide⟩

theorem tail_no_esc_nl (r g b : Nat) :
    ∀ c ∈ ('8' :: ';' :: '2' :: ';' ::
      (natDigits r ++ ';' :: natDigits g ++ ';' :: natDigits b ++ ['m'])),
      c ≠ escChar ∧ c ≠ '\n' := by
  intro c hc
  rcases List.mem_cons.mp hc with rfl | hc
  · exact ⟨by decide, by decide⟩
  rcases List.mem_cons.mp hc with rfl | hc
  · exact ⟨by decide, by decide⟩
  rcases List.mem_cons.mp hc with rfl | hc
  · exact ⟨by decide, by decide⟩
  rcases List.mem_cons.mp hc with rfl | hc
  · exact ⟨by decide, by decide⟩
  exact seg_no_esc_nl r g b c hc

theorem countOccur_fg (r g b : Nat) (t : List Char) :
    countOccur resetSeq (ansiFg r g b ++ t) = countOccur resetSeq t := by
  rw [ansiFg]
  exact countOccur_seq '3' (by decide) (by decide) _ t
    (fun h => (tail_no_esc_nl r g b escChar h).1 rfl)

theorem countOccur_bg (r g b : Nat) (t : List Char) :
    countOccur resetSeq (ansiBg r g b ++ t) = countOccur resetSeq t := by
  rw [ansiBg]
  exact countOccur_seq '4' (by decide) (by decide) _ t
    (fun h => (tail_no_esc_nl r g b escChar h).1 rfl)

theorem countOccur_cell (a b c d e f : Nat) (t : List Char) :
    countOccur resetSeq (renderCell a b c d e f ++ t) = countOccur resetSeq t := by
  rw [renderCell, List.append_assoc, List.append_assoc, countOccur_fg, countOccur_bg]
  exact countOccur_skip [halfBlock] t (by decide)

theorem countOccur_flatMap_cells (xs : List Nat) (g : Nat → List Char)
    (hg : ∀ x, ∃ a b c d e f, g x = renderCell a b c d e f) (t : List Char) :
    countOccur resetSeq (xs.flatMap g ++ t) = countOccur resetSeq t := by
  induction xs with
  | nil => simp
  | cons x xs ih =>
    rw [List.flatMap_cons, List.append_assoc]
    obtain ⟨a, b, c, d, e, f, hx⟩ := hg x
    rw [hx, countOccur_cell]
    exact ih

theorem countOccur_renderRow (pix : Raster) (w ph y : Nat) (t : List Char) :
    countOccur resetSeq (renderRow pix w ph y ++ t) = countOccur resetSeq t := by
  unfold renderRow
  exact countOccur_flatMap_cells _ _ (fun x => ⟨_, _, _, _, _, _, rfl⟩) t

theorem countOccur_reset_self : countOccur resetSeq resetSeq = 1 := by decide

theorem ansiFg_no_nl (r g b : Nat) : '\n' ∉ ansiFg r g b := by
  intro h
  rw [ansiFg] at h
  rcases List.mem_cons.mp h with h | h
  · exact absurd h (by decide)
  rcases List.mem_cons.mp h with h | h
  · exact absurd h (by decide)
  rcases List.mem_cons.mp h with h | h
  · exact absurd h (by decide)
  exact (tail_no_esc_nl r g b '\n' h).2 rfl

theorem ansiBg_no_nl (r g b : Nat) : '\n' ∉ ansiBg r g b := by
  intro h
  rw [ansiBg] at h
  rcases List.mem_cons.mp h with h | h
  · exact absurd h (by decide)
  rcases List.mem_cons.mp h with h | h
  · exact absurd h (by decide)
  rcases List.mem_cons.mp h with h | h
  · exact absurd h (by decide)
  exact (tail_no_esc_nl r g b '\n' h).2 rfl

theorem nl_not_mem_renderCell (a b c d e f : Nat) : '\n' ∉ renderCell a b c d e f := by
  intro h
  rcases List.mem_append.mp h with h | h
  · rcases List.mem_append.mp h with h | h
    · exact ansiFg_no_nl a b c h
    · exact ansiBg_no_nl d e f h
  · exact absurd (List.mem_singleton.mp h) (by decide)

theorem nl_not_mem_flatMap_cells (xs : List Nat) (g : Nat → List Char)
    (hg : ∀ x, ∃ a b c d e f, g x = renderCell a b c d e f) :
    '\n' ∉ xs.flatMap g := by
  intro h
  rcases List.mem_flatMap.mp h with ⟨x, _, hmem⟩
  obtain ⟨a, b, c, d, e, f, hx⟩ := hg x
  rw [hx] at hmem
  exact nl_not_mem_renderCell a b c d e f hmem

theorem nl_not_mem_renderRow (pix : Raster) (w ph y : Nat) :
    '\n' ∉ renderRow pix w ph y := by
  unfold renderRow
  exact nl_not_mem_flatMap_cells _ _ (fun x => ⟨_, _, _, _, _, _, rfl⟩)

theorem splitNL_append_nl (a t : List Char) (ha : '\n' ∉ a) :
    splitNL (a ++ '\n' :: t) = a :: splitNL t := by
  induction a with
  | nil => simp [splitNL]
  | cons c a ih =>
    have hc : ¬ c = '\n' := fun h => ha (h ▸ List.mem_cons_self c a)
    rw [List.cons_append, splitNL_cons, if_neg hc,
      ih (fun h => ha (List.mem_cons_of_mem _ h))]

theorem splitNL_no_nl (a : List Char) (ha : '\n' ∉ a) : splitNL a = [a] := by
  induction a with
  | nil => rfl
  | cons c a ih =>
    have hc : ¬ c = '\n' := fun h => ha (h ▸ List.mem_cons_self c a)
    rw [splitNL_cons, if_neg hc, ih (fun h => ha (List.mem_cons_of_mem _ h))]

theorem stripTrailingNL_append (a T : List Char) (h : T ≠ []) :
    stripTrailingNL (a ++ T) = a ++ stripTrailingNL T := by
  obtain ⟨c, hc⟩ : ∃ c, T.getLast? = some c := by
    cases hT : T.getLast? with
    | none => exact absurd (List.getLast?_eq_none_iff.mp hT) h
    | some c => exact ⟨c, rfl⟩
  have hor : (a ++ T).getLast? = some c := by rw [List.getLast?_append, hc]; rfl
  unfold stripTrailingNL
  rw [hor, hc]
  by_cases hcn : c = '\n'
  · subst hcn
    rw [if_pos rfl, if_pos rfl, List.dropLast_append_of_ne_nil _ h]
  · rw [if_neg (by simpa using hcn), if_neg (by simpa using hcn)]

theorem splitNL_strip_flatMap (L : List (List Char)) (hne : L ≠ [])
    (hnl : ∀ l ∈ L, '\n' ∉ l) :
    splitNL (stripTrailingNL (L.flatMap fun l => l ++ ['\n'])) = L := by
  induction L with
  | nil => exact absurd rfl hne
  | cons x L ih =>
    cases L with
    | nil =>
      simp only [List.flatMap_cons, List.flatMap_nil, List.append_nil]
      unfold stripTrailingNL
      rw [if_pos (List.getLast?_concat x), List.dropLast_concat]
      exact splitNL_no_nl x (hnl x (by simp))
    | cons y L' =>
      have hT : (y :: L').flatMap (fun l => l ++ ['\n']) ≠ [] := by simp
      rw [List.flatMap_cons, stripTrailingNL_append _ _ hT, List.append_assoc]
      rw [show ['\n'] ++ stripTrailingNL ((y :: L').flatMap fun l => l ++ ['\n']) =
        '\n' :: stripTrailingNL ((y :: L').flatMap fun l => l ++ ['\n']) from rfl]
      rw [splitNL_append_nl x _ (hnl x (by simp))]
      rw [ih (by simp) (fun l hl => hnl l (List.mem_cons_of_mem _ hl))]

theorem grayCell_eq_renderCell : grayCell = renderCell 60 60 60 40 40 40 := by decide

/-! ## Cache lemmas: eviction scan, erase, insert, reachable-state invariant -/

theorem findOldestGo_cons (kv : String × cacheEntry) (l : Cache) (acc : String × Int) :
    findOldestGo (kv :: l) acc =
      findOldestGo l
        (if acc.1 = "" ∨ kv.2.timestamp < acc.2 then (kv.1, kv.2.timestamp) else acc) := rfl

theorem findOldestGo_spec (l : Cache) :
    ∀ acc : String × Int, acc.1 ≠ "" → (∀ kv ∈ l, kv.1 ≠ "") →
      ((findOldestGo l acc = acc ∨
          ∃ kv ∈ l, findOldestGo l acc = (kv.1, kv.2.timestamp)) ∧
        (findOldestGo l acc).2 ≤ acc.2 ∧
        ∀ kv ∈ l, (findOldestGo l acc).2 ≤ kv.2.timestamp) := by
  induction l with
  | nil =>
    intro acc _ _
    exact ⟨Or.inl rfl, le_refl _, by simp⟩
  | cons kv l ih =>
    intro acc hacc hkeys
    rw [findOldestGo_cons]
    by_cases hlt : kv.2.timestamp < acc.2
    · rw [if_pos (Or.inr hlt)]
      obtain ⟨hcase, hle, hall⟩ := ih (kv.1, kv.2.timestamp)
        (hkeys kv (List.mem_cons_self kv l))
        (fun e he => hkeys e (List.mem_cons_of_mem _ he))
      refine ⟨?_, le_trans hle (le_of_lt hlt), ?_⟩
      · rcases hcase with h | ⟨e, he, h⟩
        · exact Or.inr ⟨kv, List.mem_cons_self kv l, h⟩
        · exact Or.inr ⟨e, List.mem_cons_of_mem _ he, h⟩
      · intro e he
        rcases List.mem_cons.mp he with rfl | he
        · exact hle
        · exact hall e he
    · have hcond : ¬ (acc.1 = "" ∨ kv.2.timestamp < acc.2) := by
        rintro (h | h)
        · exact hacc h
        · exact hlt h
      rw [if_neg hcond]
      obtain ⟨hcase, hle, hall⟩ := ih acc hacc
        (fun e he => hkeys e (List.mem_cons_of_mem _ he))
      refine ⟨?_, hle, ?_⟩
      · rcases hcase with h | ⟨e, he, h⟩
        · exact Or.inl h
        · exact Or.inr ⟨e, List.mem_cons_of_mem _ he, h⟩
      · intro e he
        rcases List.mem_cons.mp he with rfl | he
        · exact le_trans hle (not_lt.mp hlt)
        · exact hall e he

theorem findOldest_spec (st : Cache) (hne : st ≠ []) (hkeys : ∀ kv ∈ st, kv.1 ≠ "") :
    ∃ kv ∈ st, findOldest st = kv.1 ∧ ∀ e ∈ st, kv.2.timestamp ≤ e.2.timestamp := by
  cases st with
  | nil => exact absurd rfl hne
  | cons kv0 l =>
    have h0 : findOldest (kv0 :: l) = (findOldestGo l (kv0.1, kv0.2.timestamp)).1 := by
      rw [findOldest, findOldestGo_cons, if_pos (Or.inl rfl)]
    obtain ⟨hcase, hle, hall⟩ := findOldestGo_spec l (kv0.1, kv0.2.timestamp)
      (hkeys kv0 (List.mem_cons_self kv0 l))
      (fun e he => hkeys e (List.mem_cons_of_mem _ he))
    rcases hcase with heq | ⟨e, he, heq⟩
    · refine ⟨kv0, List.mem_cons_self kv0 l, by rw [h0, heq], ?_⟩
      intro e he'
      rcases List.mem_cons.mp he' with rfl | he'
      · exact le_refl _
      · have h2 := hall e he'
        rw [heq] at h2
        exact h2
    · refine ⟨e, List.mem_cons_of_mem _ he, by rw [h0, heq], ?_⟩
      intro e' he'
      have h2 : (findOldestGo l (kv0.1, kv0.2.timestamp)).2 = e.2.timestamp := by rw [heq]
      rcases List.mem_cons.mp he' with rfl | he'
      · rw [← h2]; exact hle
      · rw [← h2]; exact hall e' he'

theorem cacheErase_nodup (st : Cache) (k : String) (h : (st.map Prod.fst).Nodup) :
    ((cacheErase st k).map Prod.fst).Nodup :=
  List.Nodup.sublist (List.Sublist.map _ (List.filter_sublist st)) h

theorem cacheErase_keys_ne (st : Cache) (k : String) (h : ∀ kv ∈ st, kv.1 ≠ "") :
    ∀ kv ∈ cacheErase st k, kv.1 ≠ "" :=
  fun kv hkv => h kv (List.mem_filter.mp hkv).1

theorem cacheErase_length_lt (st : Cache) (k : String) (hk : k ∈ st.map Prod.fst) :
    (cacheErase st k).length < st.length := by
  apply List.length_filter_lt_length_iff_exists.mpr
  rcases List.mem_map.mp hk with ⟨kv, hkv, rfl⟩
  exact ⟨kv, hkv, by simp⟩

theorem any_key_iff (st : Cache) (k : String) :
    st.any (fun kv => kv.1 == k) = true ↔ k ∈ st.map Prod.fst := by
  rw [List.any_eq_true]
  constructor
  · rintro ⟨kv, hkv, hb⟩
    exact List.mem_map.mpr ⟨kv, hkv, eq_of_beq hb⟩
  · intro h
    rcases List.mem_map.mp h with ⟨kv, hkv, rfl⟩
    exact ⟨kv, hkv, beq_self_eq_true _⟩

theorem cacheInsert_of_not_mem (st : Cache) (k : String) (v : cacheEntry)
    (hk : k ∉ st.map Prod.fst) : cacheInsert st k v = st ++ [(k, v)] := by
  rw [cacheInsert, if_neg]
  intro h
  exact hk ((any_key_iff st k).mp h)

theorem cacheInsert_overwrite_keys (st : Cache) (k : String) (v : cacheEntry)
    (h : st.any (fun kv => kv.1 == k) = true) :
    (cacheInsert st k v).map Prod.fst = st.map Prod.fst ∧
    (cacheInsert st k v).length = st.length := by
  rw [cacheInsert, if_pos h]
  constructor
  · rw [List.map_map]
    apply List.map_congr_left
    intro kv _
    show Prod.fst (if kv.1 == k then (k, v) else kv) = kv.1
    by_cases hb : (kv.1 == k) = true
    · rw [if_pos hb]; exact (eq_of_beq hb).symm
    · rw [if_neg (by simpa using hb)]
  · rw [List.length_map]

theorem cacheInsert_keys_ne (st : Cache) (k : String) (v : cacheEntry) (hk : k ≠ "")
    (h : ∀ kv ∈ st, kv.1 ≠ "") : ∀ kv ∈ cacheInsert st k v, kv.1 ≠ "" := by
  intro kv hkv
  rw [cacheInsert] at hkv
  split at hkv
  · rcases List.mem_map.mp hkv with ⟨e, he, rfl⟩
    by_cases hb : (e.1 == k) = true
    · rw [if_pos hb]; exact hk
    · rw [if_neg (by simpa using hb)]; exact h e he
  · rcases List.mem_append.mp hkv with he | he
    · exact h kv he
    · have := List.mem_singleton.mp he
      subst this
      exact hk

theorem cacheInsert_nodup (st : Cache) (k : String) (v : cacheEntry)
    (hnd : (st.map Prod.fst).Nodup) : ((cacheInsert st k v).map Prod.fst).Nodup := by
  by_cases hmem : st.any (fun kv => kv.1 == k) = true
  · rw [(cacheInsert_overwrite_keys st k v hmem).1]; exact hnd
  · have hnm : k ∉ st.map Prod.fst := fun h => hmem ((any_key_iff st k).mpr h)
    rw [cacheInsert_of_not_mem st k v hnm, List.map_append, List.nodup_append]
    refine ⟨hnd, List.nodup_singleton _, ?_⟩
    intro a ha hb
    simp only [List.map_cons, List.map_nil, List.mem_singleton] at hb
    subst hb
    exact hnm ha

theorem cacheInsert_length (st : Cache) (k : String) (v : cacheEntry) :
    (cacheInsert st k v).length ≤ st.length + 1 := by
  by_cases hmem : st.any (fun kv => kv.1 == k) = true
  · rw [(cacheInsert_overwrite_keys st k v hmem).2]; omega
  · rw [cacheInsert_of_not_mem st k v (fun h => hmem ((any_key_iff st k).mpr h))]
    simp

theorem renderMiss_cache_WF (url : String) (w h : Int) (st : Cache) (now : Int)
    (f : FetchOutcome) (hurl : url ≠ "") (hwf : CacheWF st) :
    CacheWF (renderMiss url w h st now f).cache := by
  obtain ⟨hlen, hnd, hne⟩ := hwf
  cases f with
  | netErr => exact ⟨hlen, hnd, hne⟩
  | decodeErr => exact ⟨hlen, hnd, hne⟩
  | ok pix =>
    show CacheWF (cacheInsert
      (if cacheSize ≤ st.length then cacheErase st (findOldest st) else st) url
      ⟨renderImage pix w h, now⟩)
    set st1 := if cacheSize ≤ st.length then cacheErase st (findOldest st) else st with hst1
    have hst1len : st1.length + 1 ≤ cacheSize := by
      by_cases hc : cacheSize ≤ st.length
      · rw [hst1, if_pos hc]
        have hne' : st ≠ [] := by
          intro hnil
          rw [hnil] at hc
          simp [cacheSize] at hc
        obtain ⟨kv, hkv, hkey, _⟩ := findOldest_spec st hne' hne
        have hmem : findOldest st ∈ st.map Prod.fst := by
          rw [hkey]; exact List.mem_map.mpr ⟨kv, hkv, rfl⟩
        have := cacheErase_length_lt st (findOldest st) hmem
        omega
      · rw [hst1, if_neg hc]; omega
    have hst1nd : (st1.map Prod.fst).Nodup := by
      by_cases hc : cacheSize ≤ st.length
      · rw [hst1, if_pos hc]; exact cacheErase_nodup st _ hnd
      · rw [hst1, if_neg hc]; exact hnd
    have hst1ne : ∀ kv ∈ st1, kv.1 ≠ "" := by
      by_cases hc : cacheSize ≤ st.length
      · rw [hst1, if_pos hc]; exact cacheErase_keys_ne st _ hne
      · rw [hst1, if_neg hc]; exact hne
    refine ⟨?_, cacheInsert_nodup st1 url _ hst1nd,
      cacheInsert_keys_ne st1 url _ hurl hst1ne⟩
    have := cacheInsert_length st1 url ⟨renderImage pix w h, now⟩
    omega

theorem cacheStep_WF (st : Cache) (op : CacheOp) (h : CacheWF st) :
    CacheWF (cacheStep st op) := by
  cases op with
  | clear => exact ⟨by simp [cacheStep, ClearCache, cacheSize], by simp [cacheStep, ClearCache],
      by simp [cacheStep, ClearCache]⟩
  | render url w hh now fetch =>
    show CacheWF (RenderFromURL url w hh st now fetch).cache
    rw [RenderFromURL]
    by_cases hurl : url = ""
    · rw [if_pos hurl]; exact h
    · rw [if_neg hurl]
      cases hlk : cacheLookup st url with
      | none => exact renderMiss_cache_WF url w hh st now fetch hurl h
      | some entry =>
        dsimp only
        by_cases hfresh : now - entry.timestamp < cacheTTL
        · rw [if_pos hfresh]; exact h
        · rw [if_neg hfresh]; exact renderMiss_cache_WF url w hh st now fetch hurl h

theorem runCache_WF (ops : List CacheOp) : CacheWF (runCache ops) := by
  rw [runCache]
  have h : ∀ st, CacheWF st → CacheWF (ops.foldl cacheStep st) := by
    induction ops with
    | nil => exact fun st h => h
    | cons op ops ih => exact fun st h => ih _ (cacheStep_WF st op h)
  exact h [] ⟨by simp [cacheSize], List.nodup_nil, by simp⟩

theorem cacheErase_length_eq (st : Cache) (k : String)
    (hnd : (st.map Prod.fst).Nodup) (hk : k ∈ st.map Prod.fst) :
    (cacheErase st k).length + 1 = st.length := by
  have hsplit := List.length_eq_countP_add_countP (fun e : String × cacheEntry => e.1 != k) st
  have hfilter : (cacheErase st k).length =
      List.countP (fun e : String × cacheEntry => e.1 != k) st := by
    rw [cacheErase]
    exact (List.countP_eq_length_filter _ _).symm
  have hcount : List.countP
      (fun e : String × cacheEntry => decide ¬((e.1 != k) = true)) st = 1 := by
    have h1 : List.countP (fun e : String × cacheEntry => decide ¬((e.1 != k) = true)) st
        = List.countP (fun s => s == k) (st.map Prod.fst) := by
      rw [List.countP_map]
      apply List.countP_congr
      intro e _
      by_cases he : e.1 = k
      · simp [he]
      · simp [he]
    rw [h1]
    have h2 : List.count k (st.map Prod.fst) = 1 := List.count_eq_one_of_mem hnd hk
    rw [← h2]
    rfl
  omega

theorem renderFromURL_eviction (st : Cache) (url : String) (w h : Int) (now : Int)
    (pix : Raster) (hwf : CacheWF st) (hlen : st.length = 10) (hurl : url ≠ "")
    (hnew : url ∉ st.map Prod.fst) :
    ∃ kv ∈ st, (∀ e ∈ st, kv.2.timestamp ≤ e.2.timestamp) ∧
      (RenderFromURL url w h st now (.ok pix)).cache =
        cacheErase st kv.1 ++ [(url, ⟨renderImage pix w h, now⟩)] ∧
      (cacheErase st kv.1).length = 9 := by
  obtain ⟨hle, hnd, hne⟩ := hwf
  have hlk : cacheLookup st url = none := by
    rw [cacheLookup, List.find?_eq_none.mpr]
    · rfl
    · intro kv hkv hb
      exact hnew (List.mem_map.mpr ⟨kv, hkv, eq_of_beq hb⟩)
  have hne' : st ≠ [] := by
    intro hnil
    rw [hnil] at hlen
    simp at hlen
  obtain ⟨kv, hkv, hkey, hmin⟩ := findOldest_spec st hne' hne
  have hstep : (RenderFromURL url w h st now (.ok pix)).cache =
      cacheInsert (cacheErase st kv.1) url ⟨renderImage pix w h, now⟩ := by
    rw [RenderFromURL, if_neg hurl, hlk]
    show (renderMiss url w h st now (.ok pix)).cache = _
    show cacheInsert (if cacheSize ≤ st.length then cacheErase st (findOldest st) else st)
      url ⟨renderImage pix w h, now⟩ = _
    rw [if_pos (by rw [hlen]; exact Nat.le_refl 10), hkey]
  refine ⟨kv, hkv, hmin, ?_, ?_⟩
  · rw [hstep]
    apply cacheInsert_of_not_mem
    intro hm
    apply hnew
    rcases List.mem_map.mp hm with ⟨e, he, rfl⟩
    exact List.mem_map.mpr ⟨e, (List.mem_filter.mp he).1, rfl⟩
  · have := cacheErase_length_eq st kv.1 hnd (List.mem_map.mpr ⟨kv, hkv, rfl⟩)
    omega

/-! ## C3 — cache capacity, key uniqueness, oldest-entry eviction -/

/-- C3: across any sequence of `RenderFromURL` and `ClearCache` operations
from process start, the cache never holds more than 10 entries and no two
entries share a URL key; and when an insertion happens on a full (10-entry)
well-formed cache with a distinct new URL, exactly one existing entry — one
with the earliest insertion timestamp — is evicted, the other 9 are kept
unchanged (in order), and the new entry is added. -/
theorem albumart_cache_invariant :
    (∀ ops : List CacheOp, (runCache ops).length ≤ 10 ∧
      ((runCache ops).map Prod.fst).Nodup) ∧
    (∀ (st : Cache) (url : String) (w h now : Int) (pix : Raster),
      CacheWF st → st.length = 10 → url ≠ "" → url ∉ st.map Prod.fst →
      ∃ kv ∈ st, (∀ e ∈ st, kv.2.timestamp ≤ e.2.timestamp) ∧
        (RenderFromURL url w h st now (.ok pix)).cache =
          cacheErase st kv.1 ++ [(url, ⟨renderImage pix w h, now⟩)] ∧
        (cacheErase st kv.1).length = 9) := by
  constructor
  · intro ops
    obtain ⟨h1, h2, _⟩ := runCache_WF ops
    exact ⟨h1, h2⟩
  · intro st url w h now pix hwf hlen hurl hnew
    exact renderFromURL_eviction st url w h now pix hwf hlen hurl hnew

/-- Witness for C3: inserting an 11th distinct URL into the concrete full
cache `cacheTen` evicts one oldest entry and keeps the other 9. -/
theorem albumart_cache_invariant_witness :
    (CacheWF cacheTen ∧ cacheTen.length = 10 ∧ "u11" ≠ "" ∧
      "u11" ∉ cacheTen.map Prod.fst) ∧
    (∃ kv ∈ cacheTen, (∀ e ∈ cacheTen, kv.2.timestamp ≤ e.2.timestamp) ∧
      (RenderFromURL "u11" 1 1 cacheTen 20 (.ok fun _ _ => (0, 0, 0))).cache =
        cacheErase cacheTen kv.1 ++
          [("u11", ⟨renderImage (fun _ _ => (0, 0, 0)) 1 1, 20⟩)] ∧
      (cacheErase cacheTen kv.1).length = 9) :=
  ⟨⟨by decide, by decide, by decide, by decide⟩,
    albumart_cache_invariant.2 cacheTen "u11" 1 1 20 (fun _ _ => (0, 0, 0))
      (by decide) (by decide) (by decide) (by decide)⟩

/-! ## C1 — renderImage output contract -/

/-- C1: for every decoded image (raster) and `cols ≥ 1`, `rows ≥ 1`, the
output of `renderImage` splits on `'\n'` into exactly `rows` lines (hence no
trailing newline); line `y` is exactly `cols` cells, the cell at column `x`
being `ESC[38;2;Rt;Gt;Btm ESC[48;2;Rb;Gb;Bbm ▀` with the top channels the
high 8 bits of the 16-bit channels of resampled pixel `(x, 2y)` and the
bottom ones those of pixel `(x, 2y+1)`, followed by the reset; and every line
contains `ESC[0m` exactly once, as its suffix. -/
theorem renderImage_output_contract (pix : Raster) (cols rows : Nat)
    (hc : 1 ≤ cols) (hr : 1 ≤ rows) :
    splitNL (renderImage pix (cols : Int) (rows : Int)) =
      (List.range rows).map (fun yc =>
        ((List.range cols).flatMap fun x =>
          renderCell ((pix x (2 * yc)).1 / 256) ((pix x (2 * yc)).2.1 / 256)
            ((pix x (2 * yc)).2.2 / 256) ((pix x (2 * yc + 1)).1 / 256)
            ((pix x (2 * yc + 1)).2.1 / 256) ((pix x (2 * yc + 1)).2.2 / 256)) ++
          resetSeq) ∧
    ∀ line ∈ splitNL (renderImage pix (cols : Int) (rows : Int)),
      countOccur resetSeq line = 1 ∧ resetSeq <:+ line := by
  have _ := hc
  have hsplit : splitNL (renderImage pix (cols : Int) (rows : Int)) =
      (List.range rows).map fun yc =>
        renderRow pix cols (2 * rows) (2 * yc) ++ resetSeq := by
    have hbody : renderImage pix (cols : Int) (rows : Int) =
        stripTrailingNL (((List.range rows).map fun yc =>
          renderRow pix cols (2 * rows) (2 * yc) ++ resetSeq).flatMap fun l =>
            l ++ ['\n']) := by
      rw [renderImage, Int.toNat_natCast, Int.toNat_natCast, List.flatMap_map]
    rw [hbody]
    apply splitNL_strip_flatMap
    · simp only [ne_eq, List.map_eq_nil_iff, List.range_eq_nil]
      omega
    · intro l hl
      rcases List.mem_map.mp hl with ⟨yc, _, rfl⟩
      intro h
      rcases List.mem_append.mp h with h | h
      · exact nl_not_mem_renderRow pix cols _ _ h
      · exact absurd h (by decide)
  have hline : ∀ yc ∈ List.range rows, renderRow pix cols (2 * rows) (2 * yc) =
      (List.range cols).flatMap fun x =>
        renderCell ((pix x (2 * yc)).1 / 256) ((pix x (2 * yc)).2.1 / 256)
          ((pix x (2 * yc)).2.2 / 256) ((pix x (2 * yc + 1)).1 / 256)
          ((pix x (2 * yc + 1)).2.1 / 256) ((pix x (2 * yc + 1)).2.2 / 256) := by
    intro yc hyc
    have hyc' : yc < rows := List.mem_range.mp hyc
    unfold renderRow
    apply List.flatMap_congr
    intro x _
    dsimp only
    rw [if_pos (show 2 * yc + 1 < 2 * rows by omega)]
  constructor
  · rw [hsplit]
    apply List.map_congr_left
    intro yc hyc
    rw [hline yc hyc]
  · intro line hmem
    rw [hsplit] at hmem
    rcases List.mem_map.mp hmem with ⟨yc, _, rfl⟩
    refine ⟨?_, List.suffix_append _ _⟩
    rw [countOccur_renderRow, countOccur_reset_self]

/-- Witness for C1 at a concrete 2×1 raster. -/
theorem renderImage_output_contract_witness :
    (1 ≤ 2 ∧ 1 ≤ 1) ∧
    (splitNL (renderImage (fun _ _ => (65535, 0, 128)) (2 : Int) (1 : Int)) =
      (List.range 1).map (fun yc =>
        ((List.range 2).flatMap fun x =>
          renderCell (((fun (_ _ : Nat) => ((65535 : Nat), (0 : Nat), (128 : Nat))) x (2 * yc)).1 / 256)
            (((fun (_ _ : Nat) => ((65535 : Nat), (0 : Nat), (128 : Nat))) x (2 * yc)).2.1 / 256)
            (((fun (_ _ : Nat) => ((65535 : Nat), (0 : Nat), (128 : Nat))) x (2 * yc)).2.2 / 256)
            (((fun (_ _ : Nat) => ((65535 : Nat), (0 : Nat), (128 : Nat))) x (2 * yc + 1)).1 / 256)
            (((fun (_ _ : Nat) => ((65535 : Nat), (0 : Nat), (128 : Nat))) x (2 * yc + 1)).2.1 / 256)
            (((fun (_ _ : Nat) => ((65535 : Nat), (0 : Nat), (128 : Nat))) x (2 * yc + 1)).2.2 / 256)) ++
          resetSeq) ∧
    ∀ line ∈ splitNL (renderImage (fun _ _ => (65535, 0, 128)) (2 : Int) (1 : Int)),
      countOccur resetSeq line = 1 ∧ resetSeq <:+ line) :=
  ⟨⟨by decide, by decide⟩,
    renderImage_output_contract (fun _ _ => (65535, 0, 128)) 2 1 (by decide) (by decide)⟩

/-! ## C8 — empty URL yields the placeholder, no download -/

/-- C8: `RenderFromURL` on the empty URL performs no HTTP request, reports no
error, leaves the cache untouched and returns `renderPlaceholder`; the
placeholder frame consists of `rows` lines of `cols` gray cells (each cell
the `▀` cell with foreground `rgb(60,60,60)` and background `rgb(40,40,40)`),
each line closed by the reset sequence. -/
theorem renderFromURL_empty_placeholder (w h : Int) (st : Cache) (now : Int)
    (f : FetchOutcome) (cols rows : Nat) (hr : 1 ≤ rows) :
    RenderFromURL "" w h st now f = ⟨renderPlaceholder w h, false, st, false⟩ ∧
    splitNL (renderPlaceholder (cols : Int) (rows : Int)) =
      List.replicate rows (((List.range cols).flatMap fun _ => grayCell) ++ resetSeq) ∧
    grayCell = renderCell 60 60 60 40 40 40 := by
  refine ⟨by rw [RenderFromURL, if_pos rfl], ?_, grayCell_eq_renderCell⟩
  have hbody : renderPlaceholder (cols : Int) (rows : Int) =
      stripTrailingNL ((List.replicate rows
        (((List.range cols).flatMap fun _ => grayCell) ++ resetSeq)).flatMap fun l =>
          l ++ ['\n']) := by
    have hrep : List.replicate rows (((List.range cols).flatMap fun _ => grayCell) ++ resetSeq) =
        (List.range rows).map fun _ =>
          ((List.range cols).flatMap fun _ => grayCell) ++ resetSeq := by
      rw [List.map_const', List.length_range]
    rw [renderPlaceholder, Int.toNat_natCast, Int.toNat_natCast, hrep, List.flatMap_map]
  rw [hbody]
  apply splitNL_strip_flatMap
  · simp only [ne_eq, List.replicate_eq_nil_iff]
    omega
  · intro l hl
    rcases List.eq_of_mem_replicate hl with rfl
    intro h
    rcases List.mem_append.mp h with h | h
    · rcases List.mem_flatMap.mp h with ⟨x, _, hmem⟩
      exact absurd hmem (by decide)
    · exact absurd h (by decide)

/-- Witness for C8 at the spec's 4×2 placeholder and a concrete cache state. -/
theorem renderFromURL_empty_placeholder_witness :
    1 ≤ 2 ∧
    (RenderFromURL "" 3 2 [("u", ⟨['x'], 5⟩)] 9 .netErr =
      ⟨renderPlaceholder 3 2, false, [("u", ⟨['x'], 5⟩)], false⟩ ∧
    splitNL (renderPlaceholder (4 : Int) (2 : Int)) =
      List.replicate 2 (((List.range 4).flatMap fun _ => grayCell) ++ resetSeq) ∧
    grayCell = renderCell 60 60 60 40 40 40) :=
  ⟨by decide, renderFromURL_empty_placeholder 3 2 [("u", ⟨['x'], 5⟩)] 9 .netErr 4 2 (by decide)⟩

/-! ## C10 — non-positive row count renders the empty string -/

/-- C10: with a non-positive row count the render loops run zero times, the
trailing-newline strip sees an empty string, and `renderImage`,
`renderPlaceholder` and `RenderFromURL ""` all return the empty string — no
cells, resets or newlines, so the output has no lines at all. -/
theorem render_nonpositive_rows (pix : Raster) (w h : Int) (hh : h ≤ 0)
    (st : Cache) (now : Int) (f : FetchOutcome) :
    renderImage pix w h = [] ∧ renderPlaceholder w h = [] ∧
    (RenderFromURL "" w h st now f).rendered = [] := by
  have ht : h.toNat = 0 := Int.toNat_of_nonpos hh
  have h1 : renderImage pix w h = [] := by rw [renderImage, ht]; rfl
  have h2 : renderPlaceholder w h = [] := by rw [renderPlaceholder, ht]; rfl
  refine ⟨h1, h2, ?_⟩
  rw [RenderFromURL, if_pos rfl]
  exact h2

/-- Witness for C10 at width 7, zero rows. -/
theorem render_nonpositive_rows_witness :
    (0 : Int) ≤ 0 ∧
    (renderImage (fun _ _ => (0, 0, 0)) 7 0 = [] ∧ renderPlaceholder 7 0 = [] ∧
      (RenderFromURL "" 7 0 [] 0 .netErr).rendered = []) :=
  ⟨by decide, render_nonpositive_rows (fun _ _ => (0, 0, 0)) 7 0 (by decide) [] 0 .netErr⟩

/-! ## C7 — placeholder plus error on download/decode failure -/

/-- C7: when the download or decode fails (a transport error, or a non-image
body such as an HTTP 500 error page, which surfaces as a decode failure since
the status is never inspected) and the cache has no fresh entry for the URL,
`RenderFromURL` returns a frame byte-equal to `RenderFromURL "" cols rows`
together with a non-nil error, and the cache is left unchanged — no entry is
created for that URL. -/
theorem renderFromURL_failure_placeholder (url : String) (w h : Int) (st : Cache)
    (now : Int) (f : FetchOutcome) (hurl : url ≠ "")
    (hmiss : ∀ entry, cacheLookup st url = some entry → cacheTTL ≤ now - entry.timestamp)
    (hfail : f = .netErr ∨ f = .decodeErr) :
    (RenderFromURL url w h st now f).rendered = (RenderFromURL "" w h st now f).rendered ∧
    (RenderFromURL url w h st now f).rendered = renderPlaceholder w h ∧
    (RenderFromURL url w h st now f).errored = true ∧
    (RenderFromURL url w h st now f).cache = st := by
  have hempty : (RenderFromURL "" w h st now f).rendered = renderPlaceholder w h := by
    rw [RenderFromURL, if_pos rfl]
  have hmain : RenderFromURL url w h st now f = ⟨renderPlaceholder w h, true, st, true⟩ := by
    rw [RenderFromURL, if_neg hurl]
    have hfail' : renderMiss url w h st now f = ⟨renderPlaceholder w h, true, st, true⟩ := by
      rcases hfail with rfl | rfl <;> rfl
    cases hlk : cacheLookup st url with
    | none => exact hfail'
    | some entry =>
      dsimp only
      have hstale := hmiss entry hlk
      rw [if_neg (by omega)]
      exact hfail'
  rw [hmain, hempty]
  exact ⟨rfl, rfl, rfl, rfl⟩

/-- Witness for C7: a stale entry for the URL, a decode failure (HTTP 500
body). -/
theorem renderFromURL_failure_placeholder_witness :
    ("http://img/500" ≠ "" ∧
      (∀ entry, cacheLookup [("http://img/500", ⟨['x'], 0⟩)] "http://img/500" = some entry →
        cacheTTL ≤ 400 - entry.timestamp)) ∧
    ((RenderFromURL "http://img/500" 4 2 [("http://img/500", ⟨['x'], 0⟩)] 400 .decodeErr).rendered =
        (RenderFromURL "" 4 2 [("http://img/500", ⟨['x'], 0⟩)] 400 .decodeErr).rendered ∧
      (RenderFromURL "http://img/500" 4 2 [("http://img/500", ⟨['x'], 0⟩)] 400 .decodeErr).rendered =
        renderPlaceholder 4 2 ∧
      (RenderFromURL "http://img/500" 4 2 [("http://img/500", ⟨['x'], 0⟩)] 400 .decodeErr).errored = true ∧
      (RenderFromURL "http://img/500" 4 2 [("http://img/500", ⟨['x'], 0⟩)] 400 .decodeErr).cache =
        [("http://img/500", ⟨['x'], 0⟩)]) :=
  ⟨⟨by decide, by decide⟩,
    renderFromURL_failure_placeholder "http://img/500" 4 2 [("http://img/500", ⟨['x'], 0⟩)] 400
      .decodeErr (by decide) (by decide) (Or.inr rfl)⟩

/-! ## C4 — refresh failure leaves the bearer state untouched -/

/-- C4: whenever `refreshAccessToken` fails — transport error, non-200 status,
or malformed JSON — it returns an error and leaves (`accessToken`,
`tokenExpiry`) exactly as before; the state is mutated only on a fully
successful refresh. -/
theorem refreshAccessToken_failure_no_mutation (st : BearerState) (now : Int)
    (f : TokenFetch) :
    ((∀ tok expIn, f ≠ .resp 200 (.ok (tok, expIn))) →
      refreshAccessToken st now f = (st, true)) ∧
    ((refreshAccessToken st now f).2 = false ↔
      ∃ tok expIn, f = .resp 200 (.ok (tok, expIn))) ∧
    ((refreshAccessToken st now f).1 ≠ st →
      ∃ tok expIn, f = .resp 200 (.ok (tok, expIn))) := by
  rcases f with _ | ⟨status, body⟩
  · simp [refreshAccessToken]
  · by_cases hs : status = 200
    · subst hs
      rcases body with e | ⟨tok, expIn⟩
      · simp [refreshAccessToken]
      · refine ⟨fun h => absurd rfl (h tok expIn), ?_, ?_⟩
        · simp [refreshAccessToken]
        · intro _; exact ⟨tok, expIn, rfl⟩
    · constructor
      · intro _; simp [refreshAccessToken, hs]
      · constructor
        · simp [refreshAccessToken, hs]
        · intro hne; exact absurd (by simp [refreshAccessToken, hs]) hne

/-- Witness for C4 at a concrete failing input (non-200 status). -/
theorem refreshAccessToken_failure_no_mutation_witness :
    refreshAccessToken ⟨"old", 40⟩ 7 (.resp 503 (.ok ("new", 3600))) =
      (⟨"old", 40⟩, true) :=
  (refreshAccessToken_failure_no_mutation ⟨"old", 40⟩ 7
      (.resp 503 (.ok ("new", 3600)))).1
    (fun tok expIn h => by cases h)

/-! ## C2 — expiry margin after `ensureValidToken` -/

/-- C2 counterexample: a refresh at time 0 with `expires_in = 90` stores
expiry 30; a later `ensureValidToken` at time 29 succeeds on the cached path,
yet the recorded expiry is only 1 second in the future — not 30. -/
theorem ensureValidToken_margin_counterexample :
    (refreshAccessToken ⟨"", 0⟩ 0 (.resp 200 (.ok ("t", 90)))).1 = ⟨"t", 30⟩ ∧
    (ensureValidToken ⟨"t", 30⟩ 29 (.resp 200 (.ok ("t", 90)))).2 = false ∧
    ¬ 29 + 30 ≤ (ensureValidToken ⟨"t", 30⟩ 29
        (.resp 200 (.ok ("t", 90)))).1.tokenExpiry := by decide

/-- C2 amended: after a successful `ensureValidToken` whose token responses
all had `expires_in ≥ 90`, the recorded expiry is strictly in the future; and
whenever the call actually refreshed (stored token empty or expired), the
refresh got HTTP 200, stored `expiry = now + (expires_in − 60)`, and that
expiry is at least 30 seconds in the future.  On the cached path only strict
futurity is guaranteed, not a 30-second margin. -/
theorem ensureValidToken_margin (st : BearerState) (now : Int) (f : TokenFetch)
    (hexp : ∀ tok expIn, f = .resp 200 (.ok (tok, expIn)) → 90 ≤ expIn)
    (hok : (ensureValidToken st now f).2 = false) :
    now < (ensureValidToken st now f).1.tokenExpiry ∧
    (¬(st.accessToken ≠ "" ∧ now < st.tokenExpiry) →
      ∃ tok expIn, f = .resp 200 (.ok (tok, expIn)) ∧
        (ensureValidToken st now f).1.tokenExpiry = now + (expIn - 60) ∧
        now + 30 ≤ (ensureValidToken st now f).1.tokenExpiry) := by
  by_cases hv : st.accessToken ≠ "" ∧ now < st.tokenExpiry
  · rw [ensureValidToken, if_pos hv]
    exact ⟨hv.2, fun h => absurd hv h⟩
  · rw [ensureValidToken, if_neg hv] at hok ⊢
    rcases f with _ | ⟨status, body⟩
    · simp [refreshAccessToken] at hok
    · by_cases hs : status = 200
      · subst hs
        rcases body with e | ⟨tok, expIn⟩
        · simp [refreshAccessToken] at hok
        · have h90 : 90 ≤ expIn := hexp tok expIn rfl
          refine ⟨by simp [refreshAccessToken]; omega, fun _ => ⟨tok, expIn, rfl, ?_, ?_⟩⟩
          · simp [refreshAccessToken]
          · simp [refreshAccessToken]; omega
      · simp [refreshAccessToken, hs] at hok

/-- Witness for C2 (amended) at a concrete refresh from the empty state. -/
theorem ensureValidToken_margin_witness :
    (0 : Int) < (ensureValidToken ⟨"", 0⟩ 0
        (.resp 200 (.ok ("t", 90)))).1.tokenExpiry ∧
    (¬((BearerState.mk "" 0).accessToken ≠ "" ∧ (0 : Int) < (BearerState.mk "" 0).tokenExpiry) →
      ∃ tok expIn, TokenFetch.resp 200 (.ok ("t", 90)) = .resp 200 (.ok (tok, expIn)) ∧
        (ensureValidToken ⟨"", 0⟩ 0 (.resp 200 (.ok ("t", 90)))).1.tokenExpiry = 0 + (expIn - 60) ∧
        0 + 30 ≤ (ensureValidToken ⟨"", 0⟩ 0 (.resp 200 (.ok ("t", 90)))).1.tokenExpiry) :=
  ensureValidToken_margin ⟨"", 0⟩ 0 (.resp 200 (.ok ("t", 90)))
    (fun tok expIn h => by cases h; decide) (by decide)

/-! ## C5 — `GetCurrentlyPlaying` response handling -/

/-- C5: 204 yields `(none, no error)` with the body never decoded (the result
is the same for every body, including a malformed one); 200 with absent item
yields `(none, no error)`; 200 with an item yields the normalized `Track`
with the documented field mapping and defaults; any other status yields the
error string carrying that status. -/
theorem getCurrentlyPlaying_cases :
    (∀ body, GetCurrentlyPlaying (.resp 204 body) = .ok none) ∧
    (∀ playing, GetCurrentlyPlaying (.resp 200 (.ok ⟨playing, none⟩)) = .ok none) ∧
    (∀ playing item, GetCurrentlyPlaying (.resp 200 (.ok ⟨playing, some item⟩)) =
      .ok (some
        { name := item.name
          artist := match item.artists with | [] => "" | a :: _ => a
          album := item.albumName
          artworkURL := match item.albumImages with | [] => "" | u :: _ => u
          isPlaying := playing })) ∧
    (∀ status body, status ≠ 204 → status ≠ 200 →
      GetCurrentlyPlaying (.resp status body) =
        .error ("spotify API error: " ++ toString status)) := by
  refine ⟨fun body => by simp [GetCurrentlyPlaying],
    fun playing => by simp [GetCurrentlyPlaying],
    fun playing item => by simp [GetCurrentlyPlaying, trackOfItem],
    fun status body h204 h200 => by simp [GetCurrentlyPlaying, h204, h200]⟩

/-- Witness for C5 at status 500 with a malformed body. -/
theorem getCurrentlyPlaying_cases_witness :
    GetCurrentlyPlaying (.resp 500 (.error ())) = .error "spotify API error: 500" := by
  have h := getCurrentlyPlaying_cases.2.2.2 500 (.error ()) (by decide) (by decide)
  simpa using h

/-! ## C6 — session fallback to recently-played -/

/-- C6: `fetchTrack` consults `GetCurrentlyPlaying`, and exactly when that
returns `(none, no error)` it falls back to `GetRecentlyPlayed`, forcing
`is_playing = false` on the fallback track; in every other case the result
does not depend on the recently-played response.  With a 204
currently-playing answer and a one-item recently-played answer, the observed
track carries that item's name and artwork with `is_playing = false`. -/
theorem fetchTrack_fallback :
    (∀ cpF rpF t, GetCurrentlyPlaying cpF = .ok (some t) →
      fetchTrack true cpF rpF = (some t, none)) ∧
    (∀ cpF rpF, GetCurrentlyPlaying cpF = .ok none →
      fetchTrack true cpF rpF =
        match GetRecentlyPlayed rpF with
        | .error e => (none, some e)
        | .ok none => (none, none)
        | .ok (some t) => (some { t with isPlaying := false }, none)) ∧
    (∀ cpF rpF rpF', GetCurrentlyPlaying cpF ≠ .ok none →
      fetchTrack true cpF rpF = fetchTrack true cpF rpF') ∧
    (∀ body, fetchTrack true (.resp 204 body)
        (.resp 200 (.ok ⟨[⟨"Fade", "13", ["http://img/1"], ["Blur"]⟩]⟩)) =
      (some ⟨"Fade", "Blur", "13", "http://img/1", false⟩, none)) := by
  refine ⟨?_, ?_, ?_, ?_⟩
  · intro cpF rpF t h; simp [fetchTrack, h]
  · intro cpF rpF h; simp [fetchTrack, h]
  · intro cpF rpF rpF' h
    rcases hcp : GetCurrentlyPlaying cpF with e | t
    · simp [fetchTrack, hcp]
    · rcases t with _ | t
      · exact absurd hcp h
      · simp [fetchTrack, hcp]
  · intro body
    have h204 : GetCurrentlyPlaying (.resp 204 body) = .ok none := by
      simp [GetCurrentlyPlaying]
    simp [fetchTrack, h204, GetRecentlyPlayed, trackOfItem]

/-- Witness for C6: the 204 / one-item scenario at a concrete (malformed)
currently-playing body. -/
theorem fetchTrack_fallback_witness :
    fetchTrack true (.resp 204 (.error ()))
        (.resp 200 (.ok ⟨[⟨"Fade", "13", ["http://img/1"], ["Blur"]⟩]⟩)) =
      (some ⟨"Fade", "Blur", "13", "http://img/1", false⟩, none) :=
  fetchTrack_fallback.2.2.2 (.error ())

/-! ## C9 — widget name truncation -/

/-- C9 counterexample: a 30-character name is truncated by the widget code to
its first 23 characters followed by `"..."` (three ASCII dots), not by the
single ellipsis character `"…"` the claim states. -/
theorem truncateDisplay_counterexample :
    truncateDisplay (List.replicate 30 'a') ≠ List.replicate 23 'a' ++ ['…'] ∧
    truncateDisplay (List.replicate 30 'a') =
      List.replicate 23 'a' ++ ['.', '.', '.'] := by decide

/-- C9 amended: any name longer than 26 characters is displayed truncated to
its first 23 characters followed by `"..."` (three ASCII dots). -/
theorem truncateDisplay_long (s : List Char) (h : 26 < s.length) :
    truncateDisplay s = s.take 23 ++ ['.', '.', '.'] := by
  simp [truncateDisplay, h]

/-- Witness for C9 (amended) at a 30-character name. -/
theorem truncateDisplay_long_witness :
    26 < (List.replicate 30 'a').length ∧
    truncateDisplay (List.replicate 30 'a') =
      (List.replicate 30 'a').take 23 ++ ['.', '.', '.'] :=
  ⟨by decide, truncateDisplay_long (List.replicate 30 'a') (by decide)⟩
